import Mathlib

/-!
# kleinanzeigen-alert: listing extraction, city lookup and cascade delete

A shallow embedding of `pkg/scraper/adScraper.go` (`GetAds`, `FindCityID`) and of
`pkg/model/query.go` (`Query.AfterDelete`).

Conventions of the embedding.

* A Go `string` is a Lean `String`; the texts handled here are valid UTF-8, so a
  string is the list of its runes.
* A Go `int` is a 64-bit signed integer.  Values are kept in `Int`; the only place
  where the width matters is `strconv.Atoi`, which rejects what does not fit.
* The functions of the Go standard library that the code calls are written out
  below for the arguments the code gives them.
* The HTML document and the HTTP exchange are inputs: a result page is the list
  of the elements the selector `.ad-listitem` matched, each with the values the
  callback reads from it; an HTTP exchange is its outcome.
* A run-time panic is the `Except.error` value of the result.
-/

set_option autoImplicit false

namespace KleinanzeigenAlert

/-- A Go run-time panic. -/
inductive Panic where
  | indexOutOfRange
  | sliceBoundsOutOfRange
  deriving DecidableEq, Repr

deriving instance DecidableEq for Except

/-! ## Go standard library -/

namespace unicode

/-- Go `unicode.IsSpace`: the Unicode White_Space property. -/
def IsSpace (r : Char) : Bool :=
  let n := r.toNat
  if n ≤ 0xFF then
    n == 0x09 || n == 0x0A || n == 0x0B || n == 0x0C || n == 0x0D || n == 0x20
      || n == 0x85 || n == 0xA0
  else
    n == 0x1680 || (0x2000 ≤ n && n ≤ 0x200A) || n == 0x2028 || n == 0x2029
      || n == 0x202F || n == 0x205F || n == 0x3000

/-- Go `unicode.ToLower`.  Runes up to `MaxASCII` are mapped by the code of the
function itself; the others go through the Unicode case tables, which are the
parameter `caseTable`. -/
def ToLower (caseTable : Char → Char) (r : Char) : Char :=
  if r.toNat ≤ 0x7F then
    if 0x41 ≤ r.toNat ∧ r.toNat ≤ 0x5A then Char.ofNat (r.toNat + 0x20) else r
  else caseTable r

end unicode

namespace strings

/-- Go `strings.HasPrefix` on rune lists. -/
def hasPrefixList : List Char → List Char → Bool
  | _, [] => true
  | [], _ :: _ => false
  | c :: cs, p :: ps => c == p && hasPrefixList cs ps

/-- Go `strings.Contains` on rune lists. -/
def containsList : List Char → List Char → Bool
  | [], sub => sub.isEmpty
  | c :: cs, sub => hasPrefixList (c :: cs) sub || containsList cs sub

/-- Go `strings.Contains`. -/
def Contains (s substr : String) : Bool := containsList s.data substr.data

/-- Removes the longest leading and the longest trailing run of runes that
satisfy `f`: Go `strings.TrimFunc`. -/
def trimFuncList (f : Char → Bool) (l : List Char) : List Char :=
  ((l.dropWhile f).reverse.dropWhile f).reverse

/-- Go `strings.Trim`. -/
def Trim (s cutset : String) : String :=
  ⟨trimFuncList (fun c => cutset.data.contains c) s.data⟩

/-- Go `strings.TrimSpace`. -/
def TrimSpace (s : String) : String := ⟨trimFuncList unicode.IsSpace s.data⟩

/-- The scan of `strings.Replace` with a non-empty `old` and no limit: `skip` is
the number of runes of the current match still to be passed over. -/
def replaceFrom (old new : List Char) : Nat → List Char → List Char
  | _, [] => []
  | skip + 1, _ :: cs => replaceFrom old new skip cs
  | 0, c :: cs =>
    if hasPrefixList (c :: cs) old then new ++ replaceFrom old new (old.length - 1) cs
    else c :: replaceFrom old new 0 cs

/-- Go `strings.ReplaceAll`: the non-overlapping occurrences of `old`, from the
left, are replaced by `new`; an empty `old` matches before every rune and at the
end. -/
def ReplaceAll (s old new : String) : String :=
  if old.data.isEmpty then ⟨new.data ++ s.data.flatMap (fun c => c :: new.data)⟩
  else ⟨replaceFrom old.data new.data 0 s.data⟩

/-- Go `strings.ToLower`. -/
def ToLower (caseTable : Char → Char) (s : String) : String :=
  ⟨s.data.map (unicode.ToLower caseTable)⟩

end strings

namespace strconv

/-- The decimal digits of `s` read from the left onto the accumulator `n`;
`none` at the first rune that is not a digit. -/
def parseDigits : List Char → Nat → Option Nat
  | [], n => some n
  | c :: cs, n =>
    if 0x30 ≤ c.toNat ∧ c.toNat ≤ 0x39 then parseDigits cs (n * 10 + (c.toNat - 0x30))
    else none

/-- Go `strconv.Atoi` for a 64-bit `int`: an optional sign and at least one
decimal digit; `none` stands for a non-nil error (syntax or range). -/
def Atoi (s : String) : Option Int :=
  match s.data with
  | [] => none
  | c :: cs =>
    let digits := if c = '-' ∨ c = '+' then cs else c :: cs
    if digits.isEmpty then none
    else
      match parseDigits digits 0 with
      | none => none
      | some n =>
        if c = '-' then (if n ≤ 2 ^ 63 then some (-(n : Int)) else none)
        else (if n < 2 ^ 63 then some (n : Int) else none)

end strconv

namespace regexp

/-- The class `\s` of Go regular expressions: `[\t\n\f\r ]`. -/
def isReSpace (c : Char) : Bool :=
  c.toNat == 0x09 || c.toNat == 0x0A || c.toNat == 0x0C || c.toNat == 0x0D || c.toNat == 0x20

/-- The left-to-right scan of `ReplaceAllString` for the pattern `\s+` and the
replacement `" "`: `inRun` tells that the previous rune belongs to a match that
was already replaced. -/
def collapseFrom : Bool → List Char → List Char
  | _, [] => []
  | inRun, c :: cs =>
    if isReSpace c then
      if inRun then collapseFrom true cs else ' ' :: collapseFrom true cs
    else c :: collapseFrom false cs

/-- The call `regexp.MustCompile("\\s+").ReplaceAllString(s, " ")`. -/
def replaceSpaceRuns (s : String) : String := ⟨collapseFrom false s.data⟩

end regexp

/-! ## pkg/scraper/adScraper.go -/

namespace scraper

/-- The struct `Ad` of the scraper. -/
structure Ad where
  Title : String
  Link : String
  Price : String
  Location : String
  ID : String
  deriving DecidableEq, Repr

/-- An attribute of an HTML node (`html.Attribute`). -/
structure Attribute where
  Key : String
  Val : String
  deriving DecidableEq, Repr

/-- An element matched by `.ad-listitem`, with what the callback reads from it:
`Attr` is `e.DOM.Nodes[0].Attr` in markup order, `href` and `linkText` are the
`href` attribute and the text of `a[class=ellipsis]`, `priceText` the text of the
price paragraph, `locationText` the text of the last location block and `dataAdid`
the `data-adid` attribute of `article[class=aditem]` (`none` when absent). -/
structure ListItem where
  Attr : List Attribute
  href : Option String
  linkText : String
  priceText : String
  locationText : String
  dataAdid : Option String
  deriving DecidableEq, Repr

/-- The location of an entry: `strings.TrimSpace` followed by the replacement of
every match of `\s+` by one space. -/
def normalizeLocation (s : String) : String :=
  regexp.replaceSpaceRuns (strings.TrimSpace s)

/-- The value `replacted` of `GetAds`. -/
def cleanPrice (price : String) : String :=
  strings.Trim
    (strings.ReplaceAll
      (strings.ReplaceAll
        (strings.ReplaceAll (strings.Trim price " ") "VB" "")
        "â‚¬" "")
      "." "")
    " "

/-- The block "Check max and min price filters" of `GetAds`: `false` when the
callback returns from inside it. -/
def priceFilter (caseTable : Char → Char) (maxPrice minPrice : Option Int) (price : String) :
    Bool :=
  match maxPrice with
  | none => true
  | some max =>
    if strings.ToLower caseTable price ≠ "zu verschenken" then
      let replacted := cleanPrice price
      if replacted.data.length = 0 then false
      else
        match strconv.Atoi replacted with
        | none => false
        | some priceValue =>
          if priceValue ≥ max then false
          else
            match minPrice with
            | none => true
            | some min => if priceValue < min then false else true
    else true

/-- The `Ad` literal appended by the callback. -/
def mkAd (e : ListItem) (id : String) : Ad :=
  { Title := e.linkText
    Link := "https://www.ebay-kleinanzeigen.de" ++ e.href.getD ""
    ID := id
    Price := strings.TrimSpace e.priceText
    Location := normalizeLocation e.locationText }

/-- The callback given to `adListEl.ForEach`: the `Ad` it appends, if any. -/
def adListItem (caseTable : Char → Char) (maxPrice minPrice : Option Int) (e : ListItem) :
    Except Panic (Option Ad) :=
  match e.Attr with
  | [] => .error .indexOutOfRange
  | attr0 :: _ =>
    if !strings.Contains attr0.Val "is-topad" then
      if priceFilter caseTable maxPrice minPrice (strings.TrimSpace e.priceText) then
        match e.dataAdid with
        | some id => .ok (some (mkAd e id))
        | none => .ok none
      else .ok none
    else .ok none

/-- The loop of `ForEach` over the matched elements, `ads` being the slice
appended to. -/
def forEach (f : ListItem → Except Panic (Option Ad)) :
    List ListItem → List Ad → Except Panic (List Ad)
  | [], ads => .ok ads
  | e :: es, ads =>
    match f e with
    | .error p => .error p
    | .ok none => forEach f es ads
    | .ok (some ad) => forEach f es (ads ++ [ad])

/-- What `c.Visit` obtains: a failure (reported to `OnError`) or a document, given
by the elements `.ad-listitem` of `#srchrslt-adtable` in document order. -/
inductive Page where
  | failed
  | document (items : List ListItem)
  deriving DecidableEq, Repr

/-- The function `GetAds`; `page`, `term`, `cityCode` and `radius` only choose the
URL that is fetched, whose outcome is `fetched`. -/
def GetAds (caseTable : Char → Char) (maxPrice minPrice : Option Int) (fetched : Page) :
    Except Panic (List Ad) :=
  match fetched with
  | .failed => .ok []
  | .document items => forEach (adListItem caseTable maxPrice minPrice) items []

/-- What reading and decoding the body of the response gives: `ioutil.ReadAll`
fails, `json.Unmarshal` into a `map[string]string` fails, or the decoded map,
listed in the order in which `range` visits its entries. -/
inductive Body where
  | readError
  | unmarshalError
  | cities (entries : List (String × String))
  deriving DecidableEq, Repr

/-- The outcome of the HTTP exchange of `FindCityID`: `http.NewRequest` fails,
`spaceClient.Do` fails, or a response arrives. -/
inductive Exchange where
  | requestError
  | sendError
  | response (StatusCode : Int) (body : Body)
  deriving DecidableEq, Repr

/-- The function `FindCityID`; the argument `untrimmed` only chooses the URL of
the exchange, whose outcome is `exchange`.  The third component of the result is
the `error`, `none` for `nil`. -/
def FindCityID (exchange : Exchange) : Except Panic (Int × String × Option String) :=
  match exchange with
  | .requestError => .ok (0, "", some "could not make request")
  | .sendError => .ok (0, "", some "could not send request")
  | .response StatusCode body =>
    if StatusCode ≠ 200 then .ok (0, "", some "request for city not successful")
    else
      match body with
      | .readError => .ok (0, "", some "could not read response")
      | .unmarshalError => .ok (0, "", some "could not parse JSON")
      | .cities entries =>
        if entries.length = 0 then .ok (0, "", some "could not find city")
        else
          match entries with
          | [] => .ok (0, "", some "no city id found")
          | (key, value) :: _ =>
            match key.data with
            | [] => .error .sliceBoundsOutOfRange
            | _ :: cityIDString =>
              match strconv.Atoi (strings.Trim ⟨cityIDString⟩ " ") with
              | none => .ok (0, "", some "could not get cityId")
              | some cityID => .ok (cityID, value, none)

end scraper

/-! ## pkg/model -/

namespace model

/-- The struct `Ad` of the model, a row of the table of ads; a `time.Time` is
kept as Unix time. -/
structure Ad where
  ID : Nat
  EbayID : String
  QueryID : Nat
  Location : String
  CreatedAt : Int
  deriving DecidableEq, Repr

/-- The struct `Query`, with the fields of the embedded `gorm.Model`; the
association `LastAds` is not a column and is read from the table of ads. -/
structure Query where
  ID : Nat
  CreatedAt : Int
  UpdatedAt : Int
  DeletedAt : Option Int
  ChatID : Int
  Term : String
  Radius : Int
  City : Int
  CityName : String
  MaxPrice : Option Int
  MinPrice : Option Int
  deriving DecidableEq, Repr

/-- The state behind a `*gorm.DB` handle: the two tables. -/
structure DB where
  queries : List Query
  ads : List Ad
  deriving DecidableEq, Repr

/-- The hook `Query.AfterDelete`: `tx.Where("query_id = ?", q.ID).Delete(&Ad{})`
removes the rows of the table of ads whose `QueryID` is `q.ID` (`Ad` has no
`DeletedAt` column, so the rows are removed, not marked); the named result `err`
is returned as it was declared, `nil`. -/
def Query.AfterDelete (q : Query) (tx : DB) : DB × Option String :=
  ({ tx with ads := tx.ads.filter (fun ad => !(ad.QueryID == q.ID)) }, none)

end model

/-! ## Auxiliary predicates of the statements -/

/-- A sign or a decimal digit. -/
def isNumeric (c : Char) : Bool :=
  c.toNat == 0x2B || c.toNat == 0x2D || (0x30 ≤ c.toNat && c.toNat ≤ 0x39)

/-! ## Concrete inputs -/

/-- An entry with the price text "1.200 VB". -/
def exampleItem : scraper.ListItem :=
  { Attr := [⟨"class", "ad-listitem"⟩]
    href := some "/s-anzeige/fahrrad/42"
    linkText := "Fahrrad"
    priceText := "\n  1.200 VB  "
    locationText := "\n 10115\n      Berlin  "
    dataAdid := some "42" }

/-- The same entry with another price text. -/
def itemWithPrice (price : String) : scraper.ListItem :=
  { exampleItem with priceText := price }

/-- A promoted entry whose `class` attribute is written after another attribute. -/
def topAdClassSecond : scraper.ListItem :=
  { exampleItem with
    Attr := [⟨"data-pos", "1"⟩, ⟨"class", "ad-listitem is-topad"⟩]
    priceText := "100 VB" }

/-- A promoted entry whose `class` attribute is written first. -/
def topAdClassFirst : scraper.ListItem :=
  { exampleItem with Attr := [⟨"class", "ad-listitem is-topad"⟩, ⟨"data-pos", "1"⟩] }

/-- An entry whose `data-adid` attribute is present and empty. -/
def emptyAdid : scraper.ListItem :=
  { exampleItem with dataAdid := some "" }

/-- An entry without a `data-adid` attribute. -/
def missingAdid : scraper.ListItem :=
  { exampleItem with dataAdid := none }

/-- A query with three stored ads, two of which reference it. -/
def exampleQuery : model.Query :=
  { ID := 7, CreatedAt := 0, UpdatedAt := 0, DeletedAt := none, ChatID := 1001,
    Term := "fahrrad", Radius := 10, City := 3331, CityName := "Berlin",
    MaxPrice := some 1500, MinPrice := none }

/-- The tables for `exampleQuery`: ads 1 and 3 reference it, ad 2 references
another query. -/
def exampleDB : model.DB :=
  { queries := [exampleQuery]
    ads := [⟨1, "42", 7, "10115 Berlin", 0⟩, ⟨2, "43", 8, "20095 Hamburg", 0⟩,
      ⟨3, "44", 7, "10117 Berlin", 0⟩] }

/-! ## Lemmas on the library functions -/

theorem mem_of_mem_trimFuncList (f : Char → Bool) (l : List Char) (c : Char)
    (h : c ∈ strings.trimFuncList f l) : c ∈ l := by
  unfold strings.trimFuncList at h
  rw [List.mem_reverse] at h
  have h1 := (List.dropWhile_sublist f).subset h
  rw [List.mem_reverse] at h1
  exact (List.dropWhile_sublist f).subset h1

theorem mem_of_mem_replaceFrom_nil (old : List Char) (l : List Char) :
    ∀ (skip : Nat) (c : Char), c ∈ strings.replaceFrom old [] skip l → c ∈ l := by
  induction l with
  | nil => intro skip c h; cases skip <;> simp [strings.replaceFrom] at h
  | cons a as ih =>
    intro skip c h
    cases skip with
    | succ k =>
      simp only [strings.replaceFrom] at h
      exact List.mem_cons_of_mem _ (ih k c h)
    | zero =>
      simp only [strings.replaceFrom] at h
      split at h
      · rw [List.nil_append] at h
        exact List.mem_cons_of_mem _ (ih _ c h)
      · rcases List.mem_cons.mp h with h | h
        · exact h ▸ List.mem_cons_self _ _
        · exact List.mem_cons_of_mem _ (ih 0 c h)

theorem mem_of_mem_ReplaceAll_empty (s old : String) (hold : old.data ≠ []) (c : Char)
    (h : c ∈ (strings.ReplaceAll s old "").data) : c ∈ s.data := by
  unfold strings.ReplaceAll at h
  have : old.data.isEmpty = false := by
    cases hd : old.data with
    | nil => exact absurd hd hold
    | cons a as => rfl
  rw [this] at h
  exact mem_of_mem_replaceFrom_nil old.data s.data 0 c h

theorem mem_of_mem_cleanPrice (price : String) (c : Char)
    (h : c ∈ (scraper.cleanPrice price).data) : c ∈ price.data := by
  unfold scraper.cleanPrice at h
  have h1 := mem_of_mem_trimFuncList _ _ c h
  have h2 := mem_of_mem_ReplaceAll_empty _ "." (by decide) c h1
  have h3 := mem_of_mem_ReplaceAll_empty _ "â‚¬" (by decide) c h2
  have h4 := mem_of_mem_ReplaceAll_empty _ "VB" (by decide) c h3
  exact mem_of_mem_trimFuncList _ _ c h4

theorem Atoi_head_isNumeric (s : String) (p : Int) (h : strconv.Atoi s = some p) :
    ∃ c cs, s.data = c :: cs ∧ isNumeric c = true := by
  unfold strconv.Atoi at h
  cases hs : s.data with
  | nil => rw [hs] at h; simp at h
  | cons c cs =>
    refine ⟨c, cs, rfl, ?_⟩
    rw [hs] at h
    by_cases hsign : c = '-' ∨ c = '+'
    · rcases hsign with rfl | rfl <;> decide
    · simp only [hsign, if_false] at h
      simp only [List.isEmpty_cons, Bool.false_eq_true, if_false] at h
      unfold strconv.parseDigits at h
      by_cases hd : 0x30 ≤ c.toNat ∧ c.toNat ≤ 0x39
      · simp [isNumeric, hd.1, hd.2]
      · simp [hd] at h

theorem ToLower_of_isNumeric (caseTable : Char → Char) (c : Char) (h : isNumeric c = true) :
    unicode.ToLower caseTable c = c := by
  unfold isNumeric at h
  simp only [Bool.or_eq_true, beq_iff_eq, Bool.and_eq_true, decide_eq_true_eq] at h
  unfold unicode.ToLower
  have h1 : c.toNat ≤ 0x7F := by omega
  have h2 : ¬ (0x41 ≤ c.toNat ∧ c.toNat ≤ 0x5A) := by omega
  simp [h1, h2]

theorem not_isNumeric_of_giveaway (caseTable : Char → Char) (price : String)
    (h : strings.ToLower caseTable price = "zu verschenken") (c : Char) (hc : c ∈ price.data) :
    isNumeric c = false := by
  by_contra hn
  have hn1 : isNumeric c = true := by simpa using hn
  have hmem : unicode.ToLower caseTable c ∈ (strings.ToLower caseTable price).data :=
    List.mem_map_of_mem _ hc
  rw [h, ToLower_of_isNumeric caseTable c hn1] at hmem
  have hall : "zu verschenken".data.all (fun x => !isNumeric x) = true := by decide
  have := (List.all_eq_true.mp hall) c hmem
  simp [hn1] at this

theorem not_giveaway_of_Atoi (caseTable : Char → Char) (price : String) (p : Int)
    (h : strconv.Atoi (scraper.cleanPrice price) = some p) :
    strings.ToLower caseTable price ≠ "zu verschenken" := by
  intro hg
  obtain ⟨c, cs, hs, hnum⟩ := Atoi_head_isNumeric _ p h
  have hc : c ∈ price.data := mem_of_mem_cleanPrice price c (by rw [hs]; exact List.mem_cons_self _ _)
  have := not_isNumeric_of_giveaway caseTable price hg c hc
  rw [hnum] at this
  exact Bool.noConfusion this

/-! ## The price filter and the loop over the entries -/

theorem priceFilter_none (caseTable : Char → Char) (minPrice : Option Int) (price : String) :
    scraper.priceFilter caseTable none minPrice price = true := rfl

theorem priceFilter_giveaway (caseTable : Char → Char) (maxPrice minPrice : Option Int)
    (price : String) (h : strings.ToLower caseTable price = "zu verschenken") :
    scraper.priceFilter caseTable maxPrice minPrice price = true := by
  unfold scraper.priceFilter
  cases maxPrice with
  | none => rfl
  | some max => simp [h]

theorem priceFilter_of_Atoi (caseTable : Char → Char) (max : Int) (minPrice : Option Int)
    (price : String) (p : Int) (hp : strconv.Atoi (scraper.cleanPrice price) = some p) :
    scraper.priceFilter caseTable (some max) minPrice price
      = decide (p < max ∧ ∀ min ∈ minPrice, min ≤ p) := by
  have hg := not_giveaway_of_Atoi caseTable price p hp
  obtain ⟨c, cs, hs, -⟩ := Atoi_head_isNumeric _ p hp
  have hlen : ¬ ((scraper.cleanPrice price).data.length = 0) := by simp [hs]
  unfold scraper.priceFilter
  simp only [hg, ne_eq, not_false_eq_true, if_true, hlen, if_false, hp]
  cases minPrice with
  | none =>
    by_cases h1 : p ≥ max
    · simp [h1]
    · have h3 : p < max := by omega
      simp [h1, h3]
  | some min =>
    by_cases h1 : p ≥ max
    · simp [h1]
    · have h3 : p < max := by omega
      by_cases h2 : p < min
      · simp [h1, h2, h3]
      · have h4 : min ≤ p := by omega
        simp [h1, h2, h3, h4]

theorem priceFilter_of_Atoi_none (caseTable : Char → Char) (max : Int) (minPrice : Option Int)
    (price : String) (hg : strings.ToLower caseTable price ≠ "zu verschenken")
    (hp : strconv.Atoi (scraper.cleanPrice price) = none) :
    scraper.priceFilter caseTable (some max) minPrice price = false := by
  unfold scraper.priceFilter
  simp only [hg, ne_eq, not_false_eq_true, if_true, hp]
  split <;> rfl

theorem forEach_append (f : scraper.ListItem → Except Panic (Option scraper.Ad))
    (xs ys : List scraper.ListItem) :
    ∀ ads, scraper.forEach f (xs ++ ys) ads
      = (scraper.forEach f xs ads).bind (scraper.forEach f ys) := by
  induction xs with
  | nil => intro ads; rfl
  | cons x xs ih =>
    intro ads
    simp only [List.cons_append, scraper.forEach]
    cases hx : f x with
    | error p => rfl
    | ok r =>
      cases r with
      | none => exact ih ads
      | some ad => exact ih _

theorem forEach_ok_acc (f : scraper.ListItem → Except Panic (Option scraper.Ad))
    (xs : List scraper.ListItem) :
    ∀ (ads out : List scraper.Ad), scraper.forEach f xs [] = .ok out →
      scraper.forEach f xs ads = .ok (ads ++ out) := by
  suffices h : ∀ (acc out : List scraper.Ad), scraper.forEach f xs acc = .ok out →
      ∃ tail, out = acc ++ tail ∧ ∀ ads, scraper.forEach f xs ads = .ok (ads ++ tail) by
    intro ads out hout
    obtain ⟨tail, htail, hall⟩ := h [] out hout
    rw [List.nil_append] at htail
    rw [htail]
    exact hall ads
  induction xs with
  | nil =>
    intro acc out h
    simp only [scraper.forEach, Except.ok.injEq] at h
    exact ⟨[], by simp [h], fun ads => by simp [scraper.forEach]⟩
  | cons x xs ih =>
    intro acc out h
    simp only [scraper.forEach] at h ⊢
    cases hx : f x with
    | error p => rw [hx] at h; cases h
    | ok r =>
      rw [hx] at h
      cases r with
      | none => exact ih acc out h
      | some ad =>
        obtain ⟨tail, htail, hall⟩ := ih (acc ++ [ad]) out h
        refine ⟨ad :: tail, by simp [htail], fun ads => ?_⟩
        have := hall (ads ++ [ad])
        simpa using this

theorem forEach_insert (f : scraper.ListItem → Except Panic (Option scraper.Ad))
    (pre post : List scraper.ListItem) (e : scraper.ListItem) (r : Option scraper.Ad)
    (before after : List scraper.Ad) (he : f e = .ok r)
    (hpre : scraper.forEach f pre [] = .ok before)
    (hpost : scraper.forEach f post [] = .ok after) :
    scraper.forEach f (pre ++ e :: post) [] = .ok (before ++ r.toList ++ after) := by
  rw [forEach_append, hpre]
  show scraper.forEach f (e :: post) before = _
  simp only [scraper.forEach, he]
  cases r with
  | none => simpa using forEach_ok_acc f post before after hpost
  | some ad => simpa using forEach_ok_acc f post (before ++ [ad]) after hpost

theorem forEach_skip (f : scraper.ListItem → Except Panic (Option scraper.Ad))
    (pre post : List scraper.ListItem) (e : scraper.ListItem) (he : f e = .ok none)
    (ads : List scraper.Ad) :
    scraper.forEach f (pre ++ e :: post) ads = scraper.forEach f (pre ++ post) ads := by
  rw [forEach_append, forEach_append]
  cases scraper.forEach f pre ads with
  | error p => rfl
  | ok acc =>
    show scraper.forEach f (e :: post) acc = scraper.forEach f post acc
    simp only [scraper.forEach, he]

/-! ## GetAds: price bounds -/

theorem adListItem_eq (caseTable : Char → Char) (maxPrice minPrice : Option Int)
    (e : scraper.ListItem) (attr0 : scraper.Attribute) (attrs : List scraper.Attribute)
    (hattr : e.Attr = attr0 :: attrs) :
    scraper.adListItem caseTable maxPrice minPrice e
      = .ok (if strings.Contains attr0.Val "is-topad" = false
              ∧ scraper.priceFilter caseTable maxPrice minPrice (strings.TrimSpace e.priceText) = true
            then e.dataAdid.map (scraper.mkAd e) else none) := by
  unfold scraper.adListItem
  rw [hattr]
  cases hc : strings.Contains attr0.Val "is-topad" <;>
    cases hf : scraper.priceFilter caseTable maxPrice minPrice (strings.TrimSpace e.priceText) <;>
    cases hid : e.dataAdid <;> simp [hc, hf, hid]

/-- C1. Price bounds in `GetAds`.  Let `e` be an entry that is not promoted (the
value of its first attribute does not contain "is-topad"), that carries a
`data-adid`, and whose trimmed price text, once cleaned, is parsed by `Atoi` as
`p`.  (i) With `maxPrice = max` the callback emits the entry exactly when
`p < max` and `minPrice` is unset or at most `p`, and skips it otherwise; on a
page the entry contributes its `Ad` at its place in exactly that case.  (ii) With
`maxPrice` unset the entry is emitted whatever `p` and `minPrice` are. -/
theorem GetAds_price_bounds (caseTable : Char → Char) (e : scraper.ListItem)
    (attr0 : scraper.Attribute) (attrs : List scraper.Attribute) (id : String) (p : Int)
    (minPrice : Option Int)
    (hattr : e.Attr = attr0 :: attrs)
    (hnotTop : strings.Contains attr0.Val "is-topad" = false)
    (hid : e.dataAdid = some id)
    (hp : strconv.Atoi (scraper.cleanPrice (strings.TrimSpace e.priceText)) = some p) :
    (∀ max : Int,
      (scraper.adListItem caseTable (some max) minPrice e = .ok (some (scraper.mkAd e id))
        ↔ p < max ∧ ∀ min ∈ minPrice, min ≤ p)
      ∧ (scraper.adListItem caseTable (some max) minPrice e = .ok none
        ↔ ¬ (p < max ∧ ∀ min ∈ minPrice, min ≤ p))
      ∧ ∀ (pre post : List scraper.ListItem) (before after : List scraper.Ad),
          scraper.GetAds caseTable (some max) minPrice (.document pre) = .ok before →
          scraper.GetAds caseTable (some max) minPrice (.document post) = .ok after →
          scraper.GetAds caseTable (some max) minPrice (.document (pre ++ e :: post))
            = .ok (before
                ++ (if p < max ∧ ∀ min ∈ minPrice, min ≤ p then [scraper.mkAd e id] else [])
                ++ after))
    ∧ scraper.adListItem caseTable none minPrice e = .ok (some (scraper.mkAd e id))
    ∧ ∀ (pre post : List scraper.ListItem) (before after : List scraper.Ad),
        scraper.GetAds caseTable none minPrice (.document pre) = .ok before →
        scraper.GetAds caseTable none minPrice (.document post) = .ok after →
        scraper.GetAds caseTable none minPrice (.document (pre ++ e :: post))
          = .ok (before ++ [scraper.mkAd e id] ++ after) := by
  have hmax : ∀ max : Int, scraper.adListItem caseTable (some max) minPrice e
      = .ok (if p < max ∧ ∀ min ∈ minPrice, min ≤ p then some (scraper.mkAd e id) else none) := by
    intro max
    rw [adListItem_eq caseTable _ _ e attr0 attrs hattr, priceFilter_of_Atoi caseTable max _ _ p hp,
      hid]
    simp [hnotTop]
  have hnone : scraper.adListItem caseTable none minPrice e = .ok (some (scraper.mkAd e id)) := by
    rw [adListItem_eq caseTable _ _ e attr0 attrs hattr, priceFilter_none, hid]
    simp [hnotTop]
  refine ⟨fun max => ⟨?_, ?_, ?_⟩, hnone, ?_⟩
  · rw [hmax max]
    by_cases hc : p < max ∧ ∀ min ∈ minPrice, min ≤ p
    · rw [if_pos hc]
      exact ⟨fun _ => hc, fun _ => rfl⟩
    · rw [if_neg hc]
      exact Iff.intro (fun h => by cases h) (fun h => absurd h hc)
  · rw [hmax max]
    by_cases hc : p < max ∧ ∀ min ∈ minPrice, min ≤ p
    · rw [if_pos hc]
      exact Iff.intro (fun h => by cases h) (fun h => absurd hc h)
    · rw [if_neg hc]
      exact ⟨fun _ => hc, fun _ => rfl⟩
  · intro pre post before after hpre hpost
    have := forEach_insert _ pre post e _ before after (hmax max) hpre hpost
    show scraper.forEach _ (pre ++ e :: post) [] = _
    rw [this]
    by_cases hc : p < max ∧ ∀ min ∈ minPrice, min ≤ p
    · simp only [if_pos hc]; rfl
    · simp only [if_neg hc]; rfl
  · intro pre post before after hpre hpost
    have := forEach_insert _ pre post e _ before after hnone hpre hpost
    show scraper.forEach _ (pre ++ e :: post) [] = _
    rw [this]
    rfl

theorem GetAds_price_bounds_witness :
    scraper.cleanPrice (strings.TrimSpace exampleItem.priceText) = "1200"
    ∧ strconv.Atoi "1200" = some 1200
    ∧ scraper.GetAds id (some 1500) none (.document [exampleItem])
        = .ok [{ Title := "Fahrrad", Link := "https://www.ebay-kleinanzeigen.de/s-anzeige/fahrrad/42",
                 Price := "1.200 VB", Location := "10115 Berlin", ID := "42" }] := by
  refine ⟨by decide, by decide, ?_⟩
  have h := (GetAds_price_bounds id exampleItem ⟨"class", "ad-listitem"⟩ [] "42" 1200 none rfl
    (by decide) rfl (by decide)).1 1500
  have h3 := h.2.2 [] [] [] [] rfl rfl
  rw [List.nil_append] at h3
  rw [h3]
  decide

/-! ## GetAds: euro sign, give-away bypass, unparseable prices -/

theorem forEach_ok_of_attr (caseTable : Char → Char) (maxPrice minPrice : Option Int)
    (items : List scraper.ListItem) (h : ∀ x ∈ items, x.Attr ≠ []) :
    ∀ ads, ∃ out, scraper.forEach (scraper.adListItem caseTable maxPrice minPrice) items ads
      = .ok out := by
  induction items with
  | nil => intro ads; exact ⟨ads, rfl⟩
  | cons x xs ih =>
    intro ads
    have hx : x.Attr ≠ [] := h x (List.mem_cons_self _ _)
    have hxs : ∀ y ∈ xs, y.Attr ≠ [] := fun y hy => h y (List.mem_cons_of_mem _ hy)
    obtain ⟨attr0, attrs, hattr⟩ := List.exists_cons_of_ne_nil hx
    simp only [scraper.forEach, adListItem_eq caseTable maxPrice minPrice x attr0 attrs hattr]
    split
    · rename_i heq; cases heq
    · exact ih hxs ads
    · exact ih hxs _

/-- C2. The cleaning step of `GetAds` at the price texts "1.200 €" and "1.600 €":
the euro sign is not among the substrings removed (the constant removed is the
three-rune text "â‚¬"), so the cleaned texts are "1200 €" and "1600 €", `Atoi`
rejects both, and with `maxPrice = 1500` both entries are skipped; had the euro
sign been removed, "1.200 €" would have been cleaned to "1200". -/
theorem GetAds_euro_price_skipped :
    scraper.cleanPrice "1.200 €" = "1200 €"
    ∧ strconv.Atoi (scraper.cleanPrice "1.200 €") = none
    ∧ scraper.GetAds id (some 1500) none (.document [itemWithPrice "1.200 €"]) = .ok []
    ∧ scraper.cleanPrice "1.600 €" = "1600 €"
    ∧ strconv.Atoi (scraper.cleanPrice "1.600 €") = none
    ∧ scraper.GetAds id (some 1500) none (.document [itemWithPrice "1.600 €"]) = .ok []
    ∧ scraper.GetAds id (some 2000) none (.document [itemWithPrice "1.600 €"]) = .ok []
    ∧ strings.Trim (strings.ReplaceAll (strings.ReplaceAll (strings.ReplaceAll
        (strings.Trim "1.200 €" " ") "VB" "") "€" "") "." "") " " = "1200" := by
  decide

/-- C3. Give-away bypass in `GetAds`: when the trimmed price text of an entry is
"zu verschenken" in any letter case (its lower-case form is that text), the entry
is not promoted and it carries a `data-adid`, the callback emits it for every
`maxPrice` and `minPrice`, set or unset, with the trimmed price text as its
`Price`; on a page it contributes its `Ad` at its place. -/
theorem GetAds_giveaway_bypass (caseTable : Char → Char) (e : scraper.ListItem)
    (attr0 : scraper.Attribute) (attrs : List scraper.Attribute) (id : String)
    (maxPrice minPrice : Option Int)
    (hattr : e.Attr = attr0 :: attrs)
    (hnotTop : strings.Contains attr0.Val "is-topad" = false)
    (hid : e.dataAdid = some id)
    (hfree : strings.ToLower caseTable (strings.TrimSpace e.priceText) = "zu verschenken") :
    scraper.adListItem caseTable maxPrice minPrice e = .ok (some (scraper.mkAd e id))
    ∧ (scraper.mkAd e id).Price = strings.TrimSpace e.priceText
    ∧ (scraper.mkAd e id).ID = id
    ∧ ∀ (pre post : List scraper.ListItem) (before after : List scraper.Ad),
        scraper.GetAds caseTable maxPrice minPrice (.document pre) = .ok before →
        scraper.GetAds caseTable maxPrice minPrice (.document post) = .ok after →
        scraper.GetAds caseTable maxPrice minPrice (.document (pre ++ e :: post))
          = .ok (before ++ [scraper.mkAd e id] ++ after) := by
  have he : scraper.adListItem caseTable maxPrice minPrice e
      = .ok (some (scraper.mkAd e id)) := by
    rw [adListItem_eq caseTable _ _ e attr0 attrs hattr,
      priceFilter_giveaway caseTable _ _ _ hfree, hid]
    simp [hnotTop]
  refine ⟨he, rfl, rfl, ?_⟩
  intro pre post before after hpre hpost
  have := forEach_insert _ pre post e _ before after he hpre hpost
  show scraper.forEach _ (pre ++ e :: post) [] = _
  rw [this]
  rfl

theorem GetAds_giveaway_bypass_witness :
    strings.TrimSpace (itemWithPrice "\n  Zu Verschenken ").priceText = "Zu Verschenken"
    ∧ scraper.adListItem id (some 0) (some 10) (itemWithPrice "\n  Zu Verschenken ")
        = .ok (some (scraper.mkAd (itemWithPrice "\n  Zu Verschenken ") "42"))
    ∧ scraper.adListItem id (some 0) none (itemWithPrice "ZU VERSCHENKEN")
        = .ok (some (scraper.mkAd (itemWithPrice "ZU VERSCHENKEN") "42")) :=
  ⟨by decide,
    (GetAds_giveaway_bypass id (itemWithPrice "\n  Zu Verschenken ") ⟨"class", "ad-listitem"⟩ []
      "42" (some 0) (some 10) rfl (by decide) rfl (by decide)).1,
    (GetAds_giveaway_bypass id (itemWithPrice "ZU VERSCHENKEN") ⟨"class", "ad-listitem"⟩ []
      "42" (some 0) none rfl (by decide) rfl (by decide)).1⟩

/-- C4, the claim as stated fails: the cleaned form "-5" of the price text "-5"
is not the decimal notation of a non-negative integer (its first rune is not a
digit), `Atoi` parses it as -5, and with `maxPrice = 10` the entry is emitted:
the result differs from the result for the page without the entry. -/
theorem GetAds_signed_price_emitted :
    strings.ToLower id (strings.TrimSpace (itemWithPrice "-5").priceText) ≠ "zu verschenken"
    ∧ scraper.cleanPrice (strings.TrimSpace (itemWithPrice "-5").priceText) = "-5"
    ∧ strconv.parseDigits "-5".data 0 = none
    ∧ strconv.Atoi "-5" = some (-5)
    ∧ scraper.GetAds id (some 10) none (.document [itemWithPrice "-5"])
        = .ok [scraper.mkAd (itemWithPrice "-5") "42"]
    ∧ scraper.GetAds id (some 10) none (.document [itemWithPrice "-5"])
        ≠ scraper.GetAds id (some 10) none (.document []) := by
  decide

/-- C4, amended. Unparseable prices are skipped without failing the fetch: when
`maxPrice` is set, for every entry (with at least one attribute, as every element
matched by a class selector has) whose trimmed price text is not "zu verschenken"
in any letter case and whose cleaned form is rejected by `Atoi` (it is empty, or
it is not an optional sign followed by decimal digits only, or the number does
not fit the 64-bit `int`), the callback appends nothing and does not panic, the
result of `GetAds` equals the result for the same page with that entry removed,
and when every other entry has an attribute too the result is a list of ads, not
a panic. -/
theorem GetAds_unparseable_price_skipped (caseTable : Char → Char) (e : scraper.ListItem)
    (max : Int) (minPrice : Option Int)
    (hattr : e.Attr ≠ [])
    (hnotFree : strings.ToLower caseTable (strings.TrimSpace e.priceText) ≠ "zu verschenken")
    (hbad : strconv.Atoi (scraper.cleanPrice (strings.TrimSpace e.priceText)) = none) :
    scraper.adListItem caseTable (some max) minPrice e = .ok none
    ∧ ∀ pre post : List scraper.ListItem,
        scraper.GetAds caseTable (some max) minPrice (.document (pre ++ e :: post))
          = scraper.GetAds caseTable (some max) minPrice (.document (pre ++ post))
        ∧ ((∀ x ∈ pre ++ post, x.Attr ≠ []) →
            ∃ ads, scraper.GetAds caseTable (some max) minPrice (.document (pre ++ e :: post))
              = .ok ads) := by
  obtain ⟨attr0, attrs, hcons⟩ := List.exists_cons_of_ne_nil hattr
  have he : scraper.adListItem caseTable (some max) minPrice e = .ok none := by
    rw [adListItem_eq caseTable _ _ e attr0 attrs hcons,
      priceFilter_of_Atoi_none caseTable max minPrice _ hnotFree hbad]
    simp
  refine ⟨he, fun pre post => ?_⟩
  have hskip : scraper.GetAds caseTable (some max) minPrice (.document (pre ++ e :: post))
      = scraper.GetAds caseTable (some max) minPrice (.document (pre ++ post)) :=
    forEach_skip _ pre post e he []
  refine ⟨hskip, fun hall => ?_⟩
  rw [hskip]
  exact forEach_ok_of_attr caseTable (some max) minPrice (pre ++ post) hall []

theorem GetAds_unparseable_price_skipped_witness :
    scraper.cleanPrice (strings.TrimSpace (itemWithPrice " VB ").priceText) = ""
    ∧ scraper.cleanPrice (strings.TrimSpace (itemWithPrice "12 Euro").priceText) = "12 Euro"
    ∧ scraper.adListItem id (some 1500) none (itemWithPrice " VB ") = .ok none
    ∧ scraper.GetAds id (some 1500) none
        (.document ([exampleItem] ++ itemWithPrice "12 Euro" :: [exampleItem]))
        = scraper.GetAds id (some 1500) none (.document ([exampleItem] ++ [exampleItem])) :=
  ⟨by decide, by decide,
    (GetAds_unparseable_price_skipped id (itemWithPrice " VB ") 1500 none (by decide) (by decide)
      (by decide)).1,
    ((GetAds_unparseable_price_skipped id (itemWithPrice "12 Euro") 1500 none (by decide)
      (by decide) (by decide)).2 [exampleItem] [exampleItem]).1⟩

/-! ## GetAds: promoted entries and external identifiers -/

theorem forEach_mem (f : scraper.ListItem → Except Panic (Option scraper.Ad))
    (items : List scraper.ListItem) :
    ∀ (ads out : List scraper.Ad), scraper.forEach f items ads = .ok out →
      ∀ ad ∈ out, ad ∈ ads ∨ ∃ e ∈ items, f e = .ok (some ad) := by
  induction items with
  | nil =>
    intro ads out h ad had
    simp only [scraper.forEach, Except.ok.injEq] at h
    exact Or.inl (h ▸ had)
  | cons x xs ih =>
    intro ads out h ad had
    simp only [scraper.forEach] at h
    cases hx : f x with
    | error p => rw [hx] at h; cases h
    | ok r =>
      rw [hx] at h
      cases r with
      | none =>
        rcases ih ads out h ad had with h1 | ⟨e, he, hfe⟩
        · exact Or.inl h1
        · exact Or.inr ⟨e, List.mem_cons_of_mem _ he, hfe⟩
      | some ad0 =>
        rcases ih (ads ++ [ad0]) out h ad had with h1 | ⟨e, he, hfe⟩
        · rcases List.mem_append.mp h1 with h2 | h2
          · exact Or.inl h2
          · have : ad = ad0 := by simpa using h2
            exact Or.inr ⟨x, List.mem_cons_self _ _, this ▸ hx⟩
        · exact Or.inr ⟨e, List.mem_cons_of_mem _ he, hfe⟩

theorem adListItem_some (caseTable : Char → Char) (maxPrice minPrice : Option Int)
    (e : scraper.ListItem) (ad : scraper.Ad)
    (h : scraper.adListItem caseTable maxPrice minPrice e = .ok (some ad)) :
    ∃ id, e.dataAdid = some id ∧ ad = scraper.mkAd e id := by
  cases hattr : e.Attr with
  | nil => unfold scraper.adListItem at h; rw [hattr] at h; cases h
  | cons attr0 attrs =>
    rw [adListItem_eq caseTable _ _ e attr0 attrs hattr] at h
    split at h
    · cases hid : e.dataAdid with
      | none => rw [hid] at h; cases h
      | some id =>
        rw [hid] at h
        simp only [Option.map_some', Except.ok.injEq, Option.some.injEq] at h
        exact ⟨id, rfl, h.symm⟩
    · cases h

/-- C5, the claim as stated fails: an entry whose `class` attribute contains
"is-topad" and stands second among the attributes is emitted. -/
theorem GetAds_topad_class_second_emitted :
    (∃ a ∈ topAdClassSecond.Attr, a.Key = "class" ∧ strings.Contains a.Val "is-topad" = true)
    ∧ scraper.GetAds id (some 1500) none (.document [topAdClassSecond])
        = .ok [scraper.mkAd topAdClassSecond "42"]
    ∧ scraper.GetAds id none none (.document [topAdClassSecond])
        = .ok [scraper.mkAd topAdClassSecond "42"] := by
  refine ⟨⟨⟨"class", "ad-listitem is-topad"⟩, by decide, by decide, by decide⟩, by decide,
    by decide⟩

/-- C5, amended. Promoted entries are never emitted when the marker is in the
first attribute: for every entry whose first attribute has a value that contains
"is-topad" (the `class` attribute, where it is written first), for every price
text and every `maxPrice` and `minPrice`, the callback appends nothing, and the
result of `GetAds` for a page equals the result for the page without that
entry. -/
theorem GetAds_topad_first_attribute_skipped (caseTable : Char → Char)
    (e : scraper.ListItem) (attr0 : scraper.Attribute) (attrs : List scraper.Attribute)
    (maxPrice minPrice : Option Int)
    (hattr : e.Attr = attr0 :: attrs)
    (htop : strings.Contains attr0.Val "is-topad" = true) :
    scraper.adListItem caseTable maxPrice minPrice e = .ok none
    ∧ ∀ pre post : List scraper.ListItem,
        scraper.GetAds caseTable maxPrice minPrice (.document (pre ++ e :: post))
          = scraper.GetAds caseTable maxPrice minPrice (.document (pre ++ post)) := by
  have he : scraper.adListItem caseTable maxPrice minPrice e = .ok none := by
    rw [adListItem_eq caseTable _ _ e attr0 attrs hattr]
    simp [htop]
  exact ⟨he, fun pre post => forEach_skip _ pre post e he []⟩

theorem GetAds_topad_first_attribute_skipped_witness :
    scraper.adListItem id none none topAdClassFirst = .ok none
    ∧ scraper.GetAds id none none (.document ([exampleItem] ++ topAdClassFirst :: []))
        = scraper.GetAds id none none (.document ([exampleItem] ++ [])) :=
  ⟨(GetAds_topad_first_attribute_skipped id topAdClassFirst ⟨"class", "ad-listitem is-topad"⟩
      [⟨"data-pos", "1"⟩] none none rfl (by decide)).1,
    (GetAds_topad_first_attribute_skipped id topAdClassFirst ⟨"class", "ad-listitem is-topad"⟩
      [⟨"data-pos", "1"⟩] none none rfl (by decide)).2 [exampleItem] []⟩

/-- C6, the claim as stated fails: an entry whose `data-adid` attribute is
present with an empty value is emitted, and the `ID` of its `Ad` is empty. -/
theorem GetAds_empty_adid_emitted :
    emptyAdid.dataAdid = some ""
    ∧ scraper.GetAds id none none (.document [emptyAdid]) = .ok [scraper.mkAd emptyAdid ""]
    ∧ (scraper.mkAd emptyAdid "").ID = ""
    ∧ scraper.GetAds id (some 1500) (some 1000) (.document [emptyAdid])
        = .ok [scraper.mkAd emptyAdid ""] := by
  decide

/-- C6, amended. Every emitted `Ad` carries the value of a `data-adid` attribute
that is present: for every page and every `maxPrice` and `minPrice`, each `Ad` of
the result of `GetAds` was built from an entry of the page whose article element
has the attribute, and its `ID` is the value of that attribute; an entry without
the attribute is never emitted, and a page gives the same result with or without
it. -/
theorem GetAds_ads_carry_data_adid (caseTable : Char → Char) (maxPrice minPrice : Option Int) :
    (∀ (fetched : scraper.Page) (ads : List scraper.Ad),
      scraper.GetAds caseTable maxPrice minPrice fetched = .ok ads →
      ∀ ad ∈ ads, ∃ items e id, fetched = .document items ∧ e ∈ items
        ∧ e.dataAdid = some id ∧ ad = scraper.mkAd e id ∧ ad.ID = id)
    ∧ ∀ e : scraper.ListItem, e.dataAdid = none →
        (∀ ad, scraper.adListItem caseTable maxPrice minPrice e ≠ .ok (some ad))
        ∧ (e.Attr ≠ [] → ∀ pre post : List scraper.ListItem,
            scraper.GetAds caseTable maxPrice minPrice (.document (pre ++ e :: post))
              = scraper.GetAds caseTable maxPrice minPrice (.document (pre ++ post))) := by
  refine ⟨?_, ?_⟩
  · intro fetched ads h ad had
    cases fetched with
    | failed =>
      simp only [scraper.GetAds, Except.ok.injEq] at h
      rw [← h] at had
      cases had
    | document items =>
      rcases forEach_mem _ items [] ads h ad had with h1 | ⟨e, he, hfe⟩
      · cases h1
      · obtain ⟨id, hid, hmk⟩ := adListItem_some caseTable maxPrice minPrice e ad hfe
        exact ⟨items, e, id, rfl, he, hid, hmk, by rw [hmk]; rfl⟩
  · intro e hnone
    have hno : ∀ ad, scraper.adListItem caseTable maxPrice minPrice e ≠ .ok (some ad) := by
      intro ad h
      obtain ⟨id, hid, -⟩ := adListItem_some caseTable maxPrice minPrice e ad h
      rw [hnone] at hid
      cases hid
    refine ⟨hno, fun hattr pre post => ?_⟩
    obtain ⟨attr0, attrs, hcons⟩ := List.exists_cons_of_ne_nil hattr
    have he : scraper.adListItem caseTable maxPrice minPrice e = .ok none := by
      rw [adListItem_eq caseTable _ _ e attr0 attrs hcons, hnone]
      simp
    exact forEach_skip _ pre post e he []

theorem GetAds_ads_carry_data_adid_witness :
    (∃ items e id, scraper.Page.document [missingAdid, exampleItem] = .document items
        ∧ e ∈ items ∧ e.dataAdid = some id ∧ scraper.mkAd exampleItem "42" = scraper.mkAd e id
        ∧ (scraper.mkAd exampleItem "42").ID = id)
    ∧ scraper.GetAds id (some 1500) none (.document ([] ++ missingAdid :: [exampleItem]))
        = scraper.GetAds id (some 1500) none (.document ([] ++ [exampleItem])) :=
  ⟨(GetAds_ads_carry_data_adid id (some 1500) none).1 (.document [missingAdid, exampleItem])
      [scraper.mkAd exampleItem "42"] (by decide) (scraper.mkAd exampleItem "42")
      (List.mem_cons_self _ _),
    ((GetAds_ads_carry_data_adid id (some 1500) none).2 missingAdid rfl).2 (by decide) []
      [exampleItem]⟩

/-! ## Trimming and decimal notation -/

theorem dropWhile_append_of_all (f : Char → Bool) (xs ys : List Char)
    (h : ∀ c ∈ xs, f c = true) : (xs ++ ys).dropWhile f = ys.dropWhile f := by
  induction xs with
  | nil => rfl
  | cons x xs ih =>
    have hx : f x = true := h x (List.mem_cons_self _ _)
    simp only [List.cons_append, List.dropWhile_cons, hx, if_true]
    exact ih (fun c hc => h c (List.mem_cons_of_mem _ hc))

theorem dropWhile_append_of_none (f : Char → Bool) (xs ys : List Char) (hne : xs ≠ [])
    (h : ∀ c ∈ xs, f c = false) : (xs ++ ys).dropWhile f = xs ++ ys := by
  cases xs with
  | nil => exact absurd rfl hne
  | cons x xs =>
    have hx : f x = false := h x (List.mem_cons_self _ _)
    simp [List.dropWhile_cons, hx]

theorem trimFuncList_padded (f : Char → Bool) (pre mid post : List Char)
    (hpre : ∀ c ∈ pre, f c = true) (hpost : ∀ c ∈ post, f c = true)
    (hne : mid ≠ []) (hmid : ∀ c ∈ mid, f c = false) :
    strings.trimFuncList f (pre ++ mid ++ post) = mid := by
  unfold strings.trimFuncList
  rw [List.append_assoc, dropWhile_append_of_all f pre _ hpre,
    dropWhile_append_of_none f mid post hne hmid, List.reverse_append,
    dropWhile_append_of_all f post.reverse _ (fun c hc => hpost c (List.mem_reverse.mp hc))]
  have := dropWhile_append_of_none f mid.reverse [] (by simpa using hne)
    (fun c hc => hmid c (List.mem_reverse.mp hc))
  rw [List.append_nil] at this
  rw [this, List.reverse_reverse]

theorem parseDigits_append (xs ys : List Char) :
    ∀ acc, strconv.parseDigits (xs ++ ys) acc
      = (strconv.parseDigits xs acc).bind (strconv.parseDigits ys) := by
  induction xs with
  | nil => intro acc; rfl
  | cons x xs ih =>
    intro acc
    simp only [List.cons_append, strconv.parseDigits]
    split
    · exact ih _
    · rfl

theorem digitChar_toNat (k : Nat) (hk : k < 10) : (Nat.digitChar k).toNat = 0x30 + k := by
  interval_cases k <;> rfl

theorem toDigitsCore_parse (fuel : Nat) :
    ∀ (n : Nat) (ds : List Char), n < fuel →
      ∃ pre, Nat.toDigitsCore 10 fuel n ds = pre ++ ds ∧ pre ≠ []
        ∧ (∀ c ∈ pre, 0x30 ≤ c.toNat ∧ c.toNat ≤ 0x39)
        ∧ ∀ acc, strconv.parseDigits pre acc = some (acc * 10 ^ pre.length + n) := by
  induction fuel with
  | zero => intro n ds h; omega
  | succ fuel ih =>
    intro n ds hn
    have hd := digitChar_toNat (n % 10) (Nat.mod_lt _ (by norm_num))
    have hone : ∀ acc, strconv.parseDigits [Nat.digitChar (n % 10)] acc
        = some (acc * 10 + n % 10) := by
      intro acc
      have hlt := Nat.mod_lt n (show 0 < 10 by norm_num)
      have hcond : 0x30 ≤ 0x30 + n % 10 ∧ 0x30 + n % 10 ≤ 0x39 := by omega
      simp only [strconv.parseDigits, hd]
      rw [if_pos hcond]
      simp
    simp only [Nat.toDigitsCore]
    by_cases h0 : n / 10 = 0
    · rw [if_pos h0]
      refine ⟨[Nat.digitChar (n % 10)], rfl, by simp, ?_, ?_⟩
      · intro c hc
        have hc' : c = Nat.digitChar (n % 10) := by simpa using hc
        rw [hc', hd]
        have := Nat.mod_lt n (show 0 < 10 by norm_num)
        omega
      · intro acc
        rw [hone acc]
        have : n % 10 = n := by omega
        simp [this]
    · rw [if_neg h0]
      obtain ⟨pre, hpre, hne, hdig, hparse⟩ := ih (n / 10) (Nat.digitChar (n % 10) :: ds)
        (by omega)
      refine ⟨pre ++ [Nat.digitChar (n % 10)], by rw [hpre]; simp, by simp, ?_, ?_⟩
      · intro c hc
        rcases List.mem_append.mp hc with h | h
        · exact hdig c h
        · have hc' : c = Nat.digitChar (n % 10) := by simpa using h
          rw [hc', hd]
          have := Nat.mod_lt n (show 0 < 10 by norm_num)
          omega
      · intro acc
        rw [parseDigits_append, hparse acc]
        show strconv.parseDigits [Nat.digitChar (n % 10)] _ = _
        rw [hone]
        congr 1
        rw [List.length_append, List.length_singleton, pow_succ]
        have := Nat.div_add_mod n 10
        nlinarith [this]

theorem toDigits_parse (n : Nat) :
    Nat.toDigits 10 n ≠ [] ∧ (∀ c ∈ Nat.toDigits 10 n, 0x30 ≤ c.toNat ∧ c.toNat ≤ 0x39)
      ∧ strconv.parseDigits (Nat.toDigits 10 n) 0 = some n := by
  obtain ⟨pre, hpre, hne, hdig, hparse⟩ := toDigitsCore_parse (n + 1) n [] (by omega)
  rw [List.append_nil] at hpre
  unfold Nat.toDigits
  rw [hpre]
  refine ⟨hne, hdig, ?_⟩
  rw [hparse 0]
  simp

theorem Atoi_decimal (n : Nat) (hn : n < 2 ^ 63) :
    strconv.Atoi ⟨Nat.toDigits 10 n⟩ = some (n : Int) := by
  obtain ⟨hne, hdig, hparse⟩ := toDigits_parse n
  unfold strconv.Atoi
  cases hs : Nat.toDigits 10 n with
  | nil => exact absurd hs hne
  | cons c cs =>
    have hc := hdig c (by rw [hs]; exact List.mem_cons_self _ _)
    have h1 : c ≠ '-' := by rintro rfl; revert hc; decide
    have h2 : c ≠ '+' := by rintro rfl; revert hc; decide
    rw [hs] at hparse
    simp [h1, h2, hparse]
    omega

theorem Atoi_range (s : String) (v : Int) (h : strconv.Atoi s = some v) :
    -(2 ^ 63 : Int) ≤ v ∧ v < 2 ^ 63 := by
  unfold strconv.Atoi at h
  cases hs : s.data with
  | nil => rw [hs] at h; cases h
  | cons c cs =>
    rw [hs] at h
    simp only at h
    by_cases hempty : (if c = '-' ∨ c = '+' then cs else c :: cs).isEmpty = true
    · rw [if_pos hempty] at h; cases h
    · rw [if_neg hempty] at h
      cases hpd : strconv.parseDigits (if c = '-' ∨ c = '+' then cs else c :: cs) 0 with
      | none => rw [hpd] at h; cases h
      | some n =>
        rw [hpd] at h
        simp only at h
        by_cases hneg : c = '-'
        · rw [if_pos hneg] at h
          by_cases hle : n ≤ 2 ^ 63
          · rw [if_pos hle] at h
            simp only [Option.some.injEq] at h
            have : (n : Int) ≤ 2 ^ 63 := by exact_mod_cast hle
            omega
          · rw [if_neg hle] at h; cases h
        · rw [if_neg hneg] at h
          by_cases hlt : n < 2 ^ 63
          · rw [if_pos hlt] at h
            simp only [Option.some.injEq] at h
            have : (n : Int) < 2 ^ 63 := by exact_mod_cast hlt
            omega
          · rw [if_neg hlt] at h; cases h

/-! ## FindCityID -/

theorem Trim_space_decimal (lead trail n : Nat) :
    strings.Trim ⟨List.replicate lead ' ' ++ (Nat.repr n).data ++ List.replicate trail ' '⟩ " "
      = ⟨Nat.toDigits 10 n⟩ := by
  obtain ⟨hne, hdig, -⟩ := toDigits_parse n
  unfold strings.Trim
  congr 1
  apply trimFuncList_padded
  · intro c hc
    rw [List.eq_of_mem_replicate hc]
    decide
  · intro c hc
    rw [List.eq_of_mem_replicate hc]
    decide
  · exact hne
  · intro c hc
    have h := hdig c hc
    have hne : c ≠ ' ' := by rintro rfl; revert h; decide
    simp [hne]

theorem FindCityID_ok_nil (exchange : scraper.Exchange) (code : Int) (name : String)
    (h : scraper.FindCityID exchange = .ok (code, name, none)) :
    ∃ key rest c cs, exchange = .response 200 (.cities ((key, name) :: rest))
      ∧ key.data = c :: cs ∧ strconv.Atoi (strings.Trim ⟨cs⟩ " ") = some code := by
  unfold scraper.FindCityID at h
  cases exchange with
  | requestError => simp at h
  | sendError => simp at h
  | response status body =>
    simp only at h
    by_cases hs : status ≠ 200
    · rw [if_pos hs] at h; simp at h
    · rw [if_neg hs] at h
      have hs' : status = 200 := by simpa using hs
      cases body with
      | readError => simp at h
      | unmarshalError => simp at h
      | cities entries =>
        cases entries with
        | nil => simp at h
        | cons entry rest =>
          obtain ⟨key, value⟩ := entry
          simp only [List.length_cons, Nat.add_one_ne_zero, if_false] at h
          cases hk : key.data with
          | nil => rw [hk] at h; cases h
          | cons c cs =>
            rw [hk] at h
            simp only at h
            cases ha : strconv.Atoi (strings.Trim ⟨cs⟩ " ") with
            | none => rw [ha] at h; simp at h
            | some v =>
              rw [ha] at h
              simp only [Except.ok.injEq, Prod.mk.injEq, and_true] at h
              obtain ⟨h1, h2⟩ := h
              subst h1 h2 hs'
              exact ⟨key, rest, c, cs, rfl, hk, ha⟩

/-- C7, the claim as stated fails on both counts: the key "r-5" gives a
successful return whose code is negative, and the key "r9223372036854775808",
one category character followed by the decimal digits of 2^63, gives an error. -/
theorem FindCityID_negative_code_and_overflow :
    scraper.FindCityID (.response 200 (.cities [("r-5", "Berlin")])) = .ok (-5, "Berlin", none)
    ∧ ¬ ((0 : Int) ≤ -5)
    ∧ ("r9223372036854775808" : String) = ⟨'r' :: (Nat.repr (2 ^ 63)).data⟩
    ∧ scraper.FindCityID (.response 200 (.cities [("r9223372036854775808", "Berlin")]))
        = .ok (0, "", some "could not get cityId") := by
  decide

/-- C7, amended. City key decoding in `FindCityID`: for every status-200 response
whose decoded mapping has as the entry visited first `(key, name)`, where `key`
is one category character followed by the decimal digits of a natural number
`n < 2^63`, optionally surrounded by spaces, `FindCityID` returns `(n, name, nil)`;
and on every return with a nil error the response had status 200, `(code, name)`
comes from the entry of the mapping visited first, `code` being what `Atoi` gives
for the key without its first character, trimmed of spaces, and `code` lies in
the range of the 64-bit `int` (it may be negative). -/
theorem FindCityID_decodes_key :
    (∀ (category : Char) (lead trail n : Nat) (name : String) (others : List (String × String)),
      n < 2 ^ 63 →
      scraper.FindCityID (.response 200 (.cities
        ((⟨category :: (List.replicate lead ' ' ++ (Nat.repr n).data ++ List.replicate trail ' ')⟩,
          name) :: others))) = .ok ((n : Int), name, none))
    ∧ ∀ (exchange : scraper.Exchange) (code : Int) (name : String),
        scraper.FindCityID exchange = .ok (code, name, none) →
        -(2 ^ 63 : Int) ≤ code ∧ code < 2 ^ 63
        ∧ ∃ key rest c cs, exchange = .response 200 (.cities ((key, name) :: rest))
            ∧ key.data = c :: cs ∧ strconv.Atoi (strings.Trim ⟨cs⟩ " ") = some code := by
  refine ⟨?_, ?_⟩
  · intro category lead trail n name others hn
    unfold scraper.FindCityID
    simp only [ne_eq, not_true_eq_false, if_false, List.length_cons, Nat.add_one_ne_zero]
    rw [Trim_space_decimal lead trail n, Atoi_decimal n hn]
  · intro exchange code name h
    obtain ⟨key, rest, c, cs, hex, hk, ha⟩ := FindCityID_ok_nil exchange code name h
    obtain ⟨h1, h2⟩ := Atoi_range _ code ha
    exact ⟨h1, h2, key, rest, c, cs, hex, hk, ha⟩

theorem FindCityID_decodes_key_witness :
    scraper.FindCityID (.response 200 (.cities [("r123456", "Berlin")]))
        = .ok (123456, "Berlin", none)
    ∧ (-(2 ^ 63 : Int) ≤ -5 ∧ (-5 : Int) < 2 ^ 63
        ∧ ∃ key rest c cs, scraper.Exchange.response 200 (.cities [("r-5", "Berlin")])
              = .response 200 (.cities ((key, "Berlin") :: rest))
            ∧ key.data = c :: cs ∧ strconv.Atoi (strings.Trim ⟨cs⟩ " ") = some (-5)) :=
  ⟨FindCityID_decodes_key.1 'r' 0 0 123456 "Berlin" [] (by decide),
    FindCityID_decodes_key.2 (.response 200 (.cities [("r-5", "Berlin")])) (-5) "Berlin"
      (by decide)⟩

/-- C8 at the failing input: for the status-200 body `{"":"Berlin"}`, whose only
key is the empty string, `FindCityID` panics (slice bounds out of range) instead
of returning an error; the body `{}` gives the error "could not find city" and a
key whose remainder is not a number gives the error "could not get cityId". -/
theorem FindCityID_empty_key_panics :
    scraper.FindCityID (.response 200 (.cities [("", "Berlin")]))
        = .error .sliceBoundsOutOfRange
    ∧ scraper.FindCityID (.response 200 (.cities [])) = .ok (0, "", some "could not find city")
    ∧ scraper.FindCityID (.response 200 (.cities [("rBerlin", "Berlin")]))
        = .ok (0, "", some "could not get cityId")
    ∧ scraper.FindCityID (.response 403 .readError)
        = .ok (0, "", some "request for city not successful") := by
  decide

/-- Apart from the panic on an empty first key, `FindCityID` returns either
`(code, name, nil)` from the entry visited first or `(0, "", err)` with a non-nil
error. -/
theorem FindCityID_error_or_entry (exchange : scraper.Exchange)
    (hkey : ∀ StatusCode value rest,
      exchange ≠ .response StatusCode (.cities (("", value) :: rest))) :
    (∃ code key name rest, exchange = .response 200 (.cities ((key, name) :: rest))
        ∧ scraper.FindCityID exchange = .ok (code, name, none))
    ∨ ∃ err, scraper.FindCityID exchange = .ok (0, "", some err) := by
  unfold scraper.FindCityID
  cases exchange with
  | requestError => exact Or.inr ⟨_, rfl⟩
  | sendError => exact Or.inr ⟨_, rfl⟩
  | response status body =>
    simp only
    by_cases hs : status ≠ 200
    · rw [if_pos hs]; exact Or.inr ⟨_, rfl⟩
    · rw [if_neg hs]
      have hs' : status = 200 := by simpa using hs
      subst hs'
      cases body with
      | readError => exact Or.inr ⟨_, rfl⟩
      | unmarshalError => exact Or.inr ⟨_, rfl⟩
      | cities entries =>
        cases entries with
        | nil => exact Or.inr ⟨_, rfl⟩
        | cons entry rest =>
          obtain ⟨key, value⟩ := entry
          simp only [List.length_cons, Nat.add_one_ne_zero, if_false]
          cases hk : key.data with
          | nil =>
            have : key = "" := by
              cases key
              simp only at hk
              rw [hk]
            exact absurd (by rw [this]) (hkey 200 value rest)
          | cons c cs =>
            simp only
            cases ha : strconv.Atoi (strings.Trim ⟨cs⟩ " ") with
            | none => exact Or.inr ⟨_, rfl⟩
            | some v => exact Or.inl ⟨v, key, value, rest, rfl, rfl⟩

/-! ## Location text normalisation -/

theorem isReSpace_IsSpace (c : Char) (h : regexp.isReSpace c = true) :
    unicode.IsSpace c = true := by
  unfold regexp.isReSpace at h
  simp only [Bool.or_eq_true, beq_iff_eq] at h
  unfold unicode.IsSpace
  have h1 : c.toNat ≤ 0xFF := by omega
  simp only [h1, if_true, Bool.or_eq_true, beq_iff_eq]
  omega

theorem trimFuncList_head (f : Char → Bool) (l : List Char) :
    ∀ c ∈ (strings.trimFuncList f l).head?, f c = false := by
  intro c hc
  have hpre : strings.trimFuncList f l <+: l.dropWhile f := List.rdropWhile_prefix f _
  cases ht : strings.trimFuncList f l with
  | nil => rw [ht] at hc; cases hc
  | cons a as =>
    rw [ht] at hc hpre
    have hca : c = a := by simpa using hc.symm
    obtain ⟨rest, hrest⟩ := hpre
    have hne : l.dropWhile f ≠ [] := by rw [← hrest]; simp
    have := List.head_dropWhile_not f l hne
    have hhead : (l.dropWhile f).head hne = a := by
      simp only [← hrest, List.cons_append, List.head_cons]
    rw [hhead] at this
    rw [hca]; exact this

theorem trimFuncList_getLast (f : Char → Bool) (l : List Char) :
    ∀ c ∈ (strings.trimFuncList f l).getLast?, f c = false := by
  intro c hc
  have hne : List.rdropWhile f (l.dropWhile f) ≠ [] := by
    intro h
    have : strings.trimFuncList f l = [] := h
    rw [this] at hc; cases hc
  have h := List.rdropWhile_last_not f (l.dropWhile f) hne
  have hlast : (strings.trimFuncList f l).getLast? = some ((List.rdropWhile f (l.dropWhile f)).getLast hne) :=
    List.getLast?_eq_getLast _ hne
  rw [hlast] at hc
  have hc' : (List.rdropWhile f (l.dropWhile f)).getLast hne = c := by simpa using hc
  rw [hc'] at h
  simpa using h

theorem trimFuncList_fixed (f : Char → Bool) (t : List Char)
    (hhead : ∀ c ∈ t.head?, f c = false) (hlast : ∀ c ∈ t.getLast?, f c = false) :
    strings.trimFuncList f t = t := by
  have h1 : t.dropWhile f = t := by
    cases t with
    | nil => rfl
    | cons a as =>
      have := hhead a rfl
      simp [List.dropWhile_cons, this]
  unfold strings.trimFuncList
  rw [h1]
  show List.rdropWhile f t = t
  rw [List.rdropWhile_eq_self_iff]
  intro hne
  have := hlast (t.getLast hne) (by rw [List.getLast?_eq_getLast _ hne]; rfl)
  simp [this]

theorem collapseFrom_head (l : List Char) (a : Char) (h : l.head? = some a)
    (ha : regexp.isReSpace a = false) (inRun : Bool) :
    (regexp.collapseFrom inRun l).head? = some a := by
  cases l with
  | nil => cases h
  | cons c cs =>
    have hc : c = a := by simpa using h
    subst hc
    simp [regexp.collapseFrom, ha]

theorem collapseFrom_getLast (l : List Char) (z : Char) :
    l.getLast? = some z → regexp.isReSpace z = false →
      ∀ inRun, (regexp.collapseFrom inRun l).getLast? = some z := by
  induction l with
  | nil => intro h; cases h
  | cons c cs ih =>
    intro h hz inRun
    cases cs with
    | nil =>
      have hc : c = z := by simpa using h
      subst hc
      simp [regexp.collapseFrom, hz]
    | cons d ds =>
      have hlast : (d :: ds).getLast? = some z := by
        rw [List.getLast?_cons_cons] at h; exact h
      have ih' := ih hlast hz
      have hne : ∀ b, regexp.collapseFrom b (d :: ds) ≠ [] := by
        intro b hb
        have := ih' b
        rw [hb] at this
        cases this
      unfold regexp.collapseFrom
      split
      · split
        · exact ih' true
        · obtain ⟨x, xs, hx⟩ := List.exists_cons_of_ne_nil (hne true)
          rw [hx, List.getLast?_cons_cons, ← hx]
          exact ih' true
      · obtain ⟨x, xs, hx⟩ := List.exists_cons_of_ne_nil (hne false)
        rw [hx, List.getLast?_cons_cons, ← hx]
        exact ih' false

theorem collapseFrom_invariant (l : List Char) :
    ∀ inRun,
      (∀ c ∈ regexp.collapseFrom inRun l, regexp.isReSpace c = true → c = ' ')
      ∧ List.Chain' (fun a b => ¬ (regexp.isReSpace a = true ∧ regexp.isReSpace b = true))
          (regexp.collapseFrom inRun l)
      ∧ (inRun = true → ∀ c ∈ (regexp.collapseFrom inRun l).head?, regexp.isReSpace c = false) := by
  induction l with
  | nil =>
    intro inRun
    simp [regexp.collapseFrom]
  | cons x xs ih =>
    intro inRun
    obtain ⟨t1, t2, t3⟩ := ih true
    obtain ⟨f1, f2, -⟩ := ih false
    unfold regexp.collapseFrom
    by_cases hx : regexp.isReSpace x = true
    · rw [if_pos hx]
      cases inRun with
      | true =>
        simp only [if_true]
        exact ⟨t1, t2, fun _ => t3 rfl⟩
      | false =>
        simp only [Bool.false_eq_true, if_false]
        refine ⟨?_, ?_, fun h => by cases h⟩
        · intro c hc hsp
          rcases List.mem_cons.mp hc with h | h
          · exact h
          · exact t1 c h hsp
        · rw [List.chain'_cons']
          refine ⟨fun y hy hboth => ?_, t2⟩
          have := t3 rfl y hy
          rw [hboth.2] at this
          cases this
    · rw [if_neg hx]
      have hx' : regexp.isReSpace x = false := by simpa using hx
      refine ⟨?_, ?_, fun _ c hc => ?_⟩
      · intro c hc hsp
        rcases List.mem_cons.mp hc with h | h
        · rw [h, hx'] at hsp; cases hsp
        · exact f1 c h hsp
      · rw [List.chain'_cons']
        refine ⟨fun y _ hboth => ?_, f2⟩
        rw [hx'] at hboth
        cases hboth.1
      · have : c = x := by simpa using hc.symm
        rw [this]; exact hx'

theorem collapseFrom_fixed (o : List Char) :
    (∀ c ∈ o, regexp.isReSpace c = true → c = ' ') →
    List.Chain' (fun a b => ¬ (regexp.isReSpace a = true ∧ regexp.isReSpace b = true)) o →
    regexp.collapseFrom false o = o
      ∧ ((∀ c ∈ o.head?, regexp.isReSpace c = false) → regexp.collapseFrom true o = o) := by
  induction o with
  | nil => intro _ _; exact ⟨rfl, fun _ => rfl⟩
  | cons x xs ih =>
    intro hall hchain
    rw [List.chain'_cons'] at hchain
    obtain ⟨hx, hxs⟩ := hchain
    obtain ⟨ihf, iht⟩ := ih (fun c hc => hall c (List.mem_cons_of_mem _ hc)) hxs
    by_cases hsp : regexp.isReSpace x = true
    · have hxe : x = ' ' := hall x (List.mem_cons_self _ _) hsp
      have hhead : ∀ c ∈ xs.head?, regexp.isReSpace c = false := by
        intro c hc
        have := hx c hc
        cases hsc : regexp.isReSpace c with
        | false => rfl
        | true => exact absurd ⟨hsp, hsc⟩ this
      refine ⟨?_, fun h => ?_⟩
      · unfold regexp.collapseFrom
        rw [if_pos hsp]
        simp only [Bool.false_eq_true, if_false]
        rw [iht hhead, hxe]
      · have := h x rfl
        rw [hsp] at this
        cases this
    · refine ⟨?_, fun _ => ?_⟩
      · unfold regexp.collapseFrom
        rw [if_neg hsp, ihf]
      · unfold regexp.collapseFrom
        rw [if_neg hsp, ihf]

/-- C9, the claim as stated fails: the normalised form of a text with two
no-break spaces (or two vertical tabs) between two words keeps both, so it
contains a run of two white-space characters. -/
theorem normalizeLocation_keeps_nbsp_run :
    scraper.normalizeLocation "10115\u00a0\u00a0Berlin" = "10115\u00a0\u00a0Berlin"
    ∧ unicode.IsSpace '\u00a0' = true
    ∧ (∃ pre post a b, (scraper.normalizeLocation "10115\u00a0\u00a0Berlin").data
          = pre ++ a :: b :: post ∧ unicode.IsSpace a = true ∧ unicode.IsSpace b = true)
    ∧ scraper.normalizeLocation " a\x0b\x0bb " = "a\x0b\x0bb"
    ∧ unicode.IsSpace '\x0b' = true :=
  ⟨by decide, by decide,
    ⟨"10115".data, "Berlin".data, '\u00a0', '\u00a0', by decide, by decide, by decide⟩,
    by decide, by decide⟩

/-- C9, amended. Location text normalisation in `GetAds` is idempotent; for every
string the normalised text neither starts nor ends with a white-space character
(Unicode White_Space, what `TrimSpace` removes), it contains no two adjacent
characters of the class `\s` (tab, newline, form feed, carriage return, space),
and every character of that class in it is a space. -/
theorem normalizeLocation_idempotent (s : String) :
    scraper.normalizeLocation (scraper.normalizeLocation s) = scraper.normalizeLocation s
    ∧ (∀ c ∈ (scraper.normalizeLocation s).data.head?, unicode.IsSpace c = false)
    ∧ (∀ c ∈ (scraper.normalizeLocation s).data.getLast?, unicode.IsSpace c = false)
    ∧ List.Chain' (fun a b => ¬ (regexp.isReSpace a = true ∧ regexp.isReSpace b = true))
        (scraper.normalizeLocation s).data
    ∧ ∀ c ∈ (scraper.normalizeLocation s).data, regexp.isReSpace c = true → c = ' ' := by
  have hnot : ∀ c, unicode.IsSpace c = false → regexp.isReSpace c = false := by
    intro c hc
    cases h : regexp.isReSpace c with
    | false => rfl
    | true => rw [isReSpace_IsSpace c h] at hc; cases hc
  have hth := trimFuncList_head unicode.IsSpace s.data
  have htl := trimFuncList_getLast unicode.IsSpace s.data
  obtain ⟨hall, hchain, -⟩ := collapseFrom_invariant (strings.trimFuncList unicode.IsSpace s.data) false
  have hhead : ∀ c ∈ (scraper.normalizeLocation s).data.head?, unicode.IsSpace c = false := by
    intro c hc
    cases ht : (strings.trimFuncList unicode.IsSpace s.data).head? with
    | none =>
      have hnil : strings.trimFuncList unicode.IsSpace s.data = [] := by
        simpa using ht
      have : (scraper.normalizeLocation s).data = [] := by
        show regexp.collapseFrom false (strings.trimFuncList unicode.IsSpace s.data) = []
        rw [hnil]; rfl
      rw [this] at hc; cases hc
    | some a =>
      have ha := hth a ht
      have : (scraper.normalizeLocation s).data.head? = some a :=
        collapseFrom_head _ a ht (hnot a ha) false
      rw [this] at hc
      have hca : a = c := by simpa using hc
      rw [← hca]; exact ha
  have hlast : ∀ c ∈ (scraper.normalizeLocation s).data.getLast?, unicode.IsSpace c = false := by
    intro c hc
    cases ht : (strings.trimFuncList unicode.IsSpace s.data).getLast? with
    | none =>
      have hnil : strings.trimFuncList unicode.IsSpace s.data = [] := by
        simpa using ht
      have : (scraper.normalizeLocation s).data = [] := by
        show regexp.collapseFrom false (strings.trimFuncList unicode.IsSpace s.data) = []
        rw [hnil]; rfl
      rw [this] at hc; cases hc
    | some z =>
      have hz := htl z ht
      have : (scraper.normalizeLocation s).data.getLast? = some z :=
        collapseFrom_getLast _ z ht (hnot z hz) false
      rw [this] at hc
      have hcz : z = c := by simpa using hc
      rw [← hcz]; exact hz
  refine ⟨?_, hhead, hlast, hchain, hall⟩
  have htrim : strings.TrimSpace (scraper.normalizeLocation s) = scraper.normalizeLocation s := by
    show (⟨strings.trimFuncList unicode.IsSpace (scraper.normalizeLocation s).data⟩ : String) = _
    rw [trimFuncList_fixed unicode.IsSpace _ hhead hlast]
  show regexp.replaceSpaceRuns (strings.TrimSpace (scraper.normalizeLocation s)) = _
  rw [htrim]
  exact congrArg String.mk (collapseFrom_fixed _ hall hchain).1

theorem normalizeLocation_idempotent_witness :
    scraper.normalizeLocation "\n 10115\n      Berlin  " = "10115 Berlin"
    ∧ scraper.normalizeLocation (scraper.normalizeLocation "\n 10115\n      Berlin  ")
        = scraper.normalizeLocation "\n 10115\n      Berlin  " :=
  ⟨by decide, (normalizeLocation_idempotent "\n 10115\n      Berlin  ").1⟩

/-! ## Cascade delete -/

theorem length_filter_add_filter_not (l : List model.Ad) (p : model.Ad → Bool) :
    l.length = (l.filter (fun a => !p a)).length + (l.filter p).length := by
  induction l with
  | nil => rfl
  | cons x xs ih =>
    cases hp : p x <;> simp [List.filter_cons, hp] <;> omega

/-- C10. Cascade delete: for every state of the tables and every `Query` `q`,
after the hook `AfterDelete` of `q` has run no row of the table of ads has
`QueryID = q.ID`; the rows that remain are exactly the former rows whose
`QueryID` differs from `q.ID`, unchanged, in their order and with their
multiplicity; the number of rows removed is the number `N` of rows that
referenced `q`; the table of queries is not touched and the hook returns a nil
error. -/
theorem AfterDelete_cascade (q : model.Query) (tx : model.DB) :
    (q.AfterDelete tx).1.ads.filter (fun ad => ad.QueryID == q.ID) = []
    ∧ (∀ ad ∈ (q.AfterDelete tx).1.ads, ad.QueryID ≠ q.ID)
    ∧ (∀ ad, ad ∈ (q.AfterDelete tx).1.ads ↔ ad ∈ tx.ads ∧ ad.QueryID ≠ q.ID)
    ∧ (q.AfterDelete tx).1.ads.Sublist tx.ads
    ∧ (∀ ad, ad.QueryID ≠ q.ID → (q.AfterDelete tx).1.ads.count ad = tx.ads.count ad)
    ∧ tx.ads.length
        = (q.AfterDelete tx).1.ads.length + (tx.ads.filter (fun ad => ad.QueryID == q.ID)).length
    ∧ (q.AfterDelete tx).1.queries = tx.queries
    ∧ (q.AfterDelete tx).2 = none := by
  have hmem : ∀ ad, ad ∈ (q.AfterDelete tx).1.ads ↔ ad ∈ tx.ads ∧ ad.QueryID ≠ q.ID := by
    intro ad
    simp [model.Query.AfterDelete, List.mem_filter]
  refine ⟨?_, fun ad h => ((hmem ad).mp h).2, hmem, ?_, ?_, ?_, rfl, rfl⟩
  · rw [List.filter_eq_nil_iff]
    intro ad h
    have := ((hmem ad).mp h).2
    simpa using this
  · exact List.filter_sublist _
  · intro ad h
    simp only [model.Query.AfterDelete]
    rw [List.count_filter]
    simpa using h
  · exact length_filter_add_filter_not tx.ads (fun ad => ad.QueryID == q.ID)

theorem AfterDelete_cascade_witness :
    (exampleQuery.AfterDelete exampleDB).1.ads = [⟨2, "43", 8, "20095 Hamburg", 0⟩]
    ∧ (exampleDB.ads.filter (fun ad => ad.QueryID == exampleQuery.ID)).length = 2
    ∧ (exampleQuery.AfterDelete exampleDB).1.ads.filter
        (fun ad => ad.QueryID == exampleQuery.ID) = []
    ∧ exampleDB.ads.length
        = (exampleQuery.AfterDelete exampleDB).1.ads.length
          + (exampleDB.ads.filter (fun ad => ad.QueryID == exampleQuery.ID)).length :=
  ⟨by decide, by decide, (AfterDelete_cascade exampleQuery exampleDB).1,
    (AfterDelete_cascade exampleQuery exampleDB).2.2.2.2.2.1⟩

end KleinanzeigenAlert
